import Mathlib

/-!
Shallow embedding of the adaptive search-ranking engine
(`SelfLearningAIEngine` in `client/src/components/Filters.tsx`) of the
commercial-rental-service repository, together with theorems settling the
spec's claims about it.

Modelling conventions:
* JS strings are `List Char` (`Str`); `toLowerCase` is modelled at the
  ASCII level by `Char.toLower`, `\s` by `Char.isWhitespace`.
* JS numbers are `ℚ` (the engine only performs exact +, *, /, min, max,
  abs and comparisons on them, so rationals reproduce the float results
  for the inputs of interest).
* A JS `Map` is an insertion-ordered association list; `Map.set` updates
  an existing key in place, otherwise appends (`mapSet`).
* The JS `||` default-fallback on numbers treats `0` as falsy (`jsOr`).
* `Array.prototype.sort` with the comparator `scoreB - scoreA` is (per
  the ECMAScript spec) a stable sort by the final score, descending; it
  is modelled by the stable insertion sort `sortByDesc`.
-/

set_option maxRecDepth 16000

namespace Engine

abbrev Str := List Char

/-- `s.toLowerCase()` (ASCII-level model). -/
def toLowerStr (s : Str) : Str := s.map Char.toLower

/-- `s.trim()`. -/
def trimStr (s : Str) : Str :=
  ((s.dropWhile Char.isWhitespace).reverse.dropWhile Char.isWhitespace).reverse

/-- Helper for `splitWs`: one pass over the string; `acc` holds the token
being built (reversed), `inSep` records that the scanner is inside a run of
whitespace (a `/\s+/` separator, whose previous token was already emitted).
Mirrors `s.split(/\s+/)`, including the empty leading/trailing tokens JS
produces. -/
def splitWsAux : Str → Str → Bool → List Str
  | [], acc, inSep => if inSep then [[]] else [acc.reverse]
  | c :: rest, acc, false =>
    if Char.isWhitespace c then acc.reverse :: splitWsAux rest [] true
    else splitWsAux rest (c :: acc) false
  | c :: rest, _, true =>
    if Char.isWhitespace c then splitWsAux rest [] true
    else splitWsAux rest [c] false

/-- `s.split(/\s+/)`. -/
def splitWs (s : Str) : List Str := splitWsAux s [] false

/-- `parseInt` on a run of decimal digits. -/
def parseDigits (l : Str) : Nat := l.foldl (fun acc c => acc * 10 + (c.toNat - 48)) 0

/-- Helper for `extractNumbers`: `acc` holds the digit run being scanned,
reversed. -/
def extractNumbersAux : Str → Str → List Nat
  | [], acc => if acc = [] then [] else [parseDigits acc.reverse]
  | c :: rest, acc =>
    if c.isDigit then extractNumbersAux rest (c :: acc)
    else if acc = [] then extractNumbersAux rest []
    else parseDigits acc.reverse :: extractNumbersAux rest []

/-- `query.match(/\d+/g)` followed by `parseInt` on each token: the maximal
runs of digits, parsed. -/
def extractNumbers (s : Str) : List Nat := extractNumbersAux s []

/-- `haystack.includes(needle)`: contiguous substring test. -/
def includesStr (needle haystack : Str) : Bool := decide (needle <:+: haystack)

/-- `Map.get`: first binding of the key in the insertion-ordered list. -/
def mapGet {α : Type} (m : List (Str × α)) (k : Str) : Option α :=
  (m.find? (fun p => p.1 = k)).map Prod.snd

/-- `Map.set`: update an existing binding in place, else append. -/
def mapSet {α : Type} (m : List (Str × α)) (k : Str) (v : α) : List (Str × α) :=
  if m.any (fun p => p.1 = k) then
    m.map (fun p => if p.1 = k then (k, v) else p)
  else
    m ++ [(k, v)]

/-- JS `x || d` for numeric `x`: `0` (and a missing value) falls back to `d`. -/
def jsOr (v : Option ℚ) (d : ℚ) : ℚ :=
  match v with
  | none => d
  | some x => if x = 0 then d else x

/-- `map.get(k) || []` — arrays (even empty ones) are truthy in JS. -/
def getListOr (m : List (Str × List Str)) (k : Str) : List Str :=
  (mapGet m k).getD []

/-- The fields of `Listing` the engine reads (contact/UI-only fields of the
source interface are omitted; the engine never touches them). -/
structure Listing where
  id : Str
  title : Str
  descr : Str
  area : ℚ
  price : ℚ
  location : Str
  ty : Str
  floor : ℚ
  hasParking : Bool
  hasStorage : Bool
deriving DecidableEq, Repr

/-- `UserInteraction`. -/
structure UserInteraction where
  query : Str
  timestamp : Nat
  resultsCount : Nat
  clickedListings : List Str
  feedbackRating : Option ℚ
  sessionId : Str
deriving DecidableEq, Repr

/-- `LearningData`. -/
structure LearningData where
  queryPatterns : List (Str × Nat)
  successfulQueries : List UserInteraction
  featureWeights : List (Str × ℚ)
  userPreferences : List (Str × ℚ)
  contextualMappings : List (Str × List Str)
deriving DecidableEq, Repr

/-- `SearchResult`. -/
structure SearchResult where
  listing : Listing
  score : ℚ
  matchedFeatures : List Str
deriving DecidableEq, Repr

/-- The default branch of `loadLearningData` (no stored blob). -/
def defaultLearningData : LearningData :=
  { queryPatterns := []
    successfulQueries := []
    featureWeights :=
      [ ("exact_match".data, 100)
      , ("type_match".data, 50)
      , ("size_match".data, 30)
      , ("price_match".data, 30)
      , ("feature_match".data, 25)
      , ("location_match".data, 20)
      , ("number_match".data, 40)
      , ("word_match".data, 20) ]
    userPreferences := []
    contextualMappings := [] }

/-- Engine instance state: the learning data plus the session fields. -/
structure EngineState where
  learningData : LearningData
  currentSessionId : Str
  currentQuery : Str
deriving DecidableEq, Repr

/-- A freshly constructed engine (constructor + default `loadLearningData`);
the generated session id is a parameter. -/
def initEngine (sid : Str) : EngineState :=
  { learningData := defaultLearningData, currentSessionId := sid, currentQuery := [] }

/-- Fuel-indexed edit-distance recursion (`fuel ≥ |a| + |b|` suffices, each
recursive call consumes a character and a unit of fuel; fuel keeps the
recursion structural). -/
def levFuel : Nat → Str → Str → Nat
  | _, [], ys => ys.length
  | _, x :: xs, [] => (x :: xs).length
  | 0, _ :: xs, _ :: ys => xs.length + ys.length
  | fuel + 1, x :: xs, y :: ys =>
    if x = y then
      levFuel fuel xs ys
    else
      min (levFuel fuel xs ys)
        (min (levFuel fuel (x :: xs) ys) (levFuel fuel xs (y :: ys))) + 1

/-- `levenshteinDistance`: the DP matrix of the source satisfies
`matrix[i][j] = d(str2[0..i), str1[0..j))` with the recurrence
`d = if last chars equal then diag else min(diag, left, up) + 1`;
this is that recurrence (consuming the strings from the front instead of
building prefix tables, which computes the same distance). -/
def levenshteinDistance (str1 str2 : Str) : Nat :=
  levFuel (str1.length + str2.length) str1 str2

/-- `calculateStringSimilarity`. -/
def calculateStringSimilarity (str1 str2 : Str) : ℚ :=
  let longer := if str2.length < str1.length then str1 else str2
  let shorter := if str2.length < str1.length then str2 else str1
  if longer.length = 0 then 1
  else ((longer.length : ℚ) - (levenshteinDistance longer shorter : ℚ)) / (longer.length : ℚ)

/-- The `baseKeywords` table of `getLearnedTypeKeywords`. -/
def baseTypeKeywords (typeLower : Str) : List Str :=
  if typeLower = "магазин".data then
    ["магазин".data, "торговля".data, "продажа".data, "ритейл".data, "розница".data]
  else if typeLower = "ресторан".data then
    ["ресторан".data, "кафе".data, "бар".data, "общепит".data, "еда".data, "питание".data]
  else if typeLower = "офис".data then
    ["офис".data, "работа".data, "бизнес".data, "деловой".data, "it".data]
  else if typeLower = "склад".data then
    ["склад".data, "хранение".data, "логистика".data, "товары".data]
  else []

/-- `getLearnedTypeKeywords`: the base table plus every learned pattern with
frequency > 5 containing the first 4 characters of the category name. -/
def getLearnedTypeKeywords (ld : LearningData) (ty : Str) : List Str :=
  let typeLower := toLowerStr ty
  baseTypeKeywords typeLower ++
    ((ld.queryPatterns.filter
      (fun p => decide (5 < p.2) && includesStr (typeLower.take 4) p.1)).map Prod.fst)

/-- The numeric loop of `calculateAdaptiveSizeScore`: first number ≤ 1000
within 100 of the area decides the raw score (`none` = loop fell through). -/
def sizeScoreFromNumbers (area : ℚ) : List Nat → Option ℚ
  | [] => none
  | n :: rest =>
    if n ≤ 1000 then
      let diff := |area - (n : ℚ)|
      if diff ≤ 20 then some 40
      else if diff ≤ 50 then some 20
      else if diff ≤ 100 then some 10
      else sizeScoreFromNumbers area rest
    else sizeScoreFromNumbers area rest

/-- `getLearnedSizePreferences` (the base buckets; the adaptation is a TODO
in the source). -/
def getLearnedSizePreferences : List (Str × ℚ × ℚ) :=
  [ ("маленький".data, 0, 50)
  , ("небольшой".data, 50, 100)
  , ("средний".data, 100, 200)
  , ("большой".data, 200, 500) ]

/-- The qualitative-word loop of `calculateAdaptiveSizeScore`: the first
bucket whose word occurs in the query and whose range contains the area
yields 30. -/
def sizeScoreFromWords (query : Str) (area : ℚ) : List (Str × ℚ × ℚ) → ℚ
  | [] => 0
  | (w, lo, hi) :: rest =>
    if includesStr w query then
      if lo ≤ area ∧ area ≤ hi then 30 else sizeScoreFromWords query area rest
    else sizeScoreFromWords query area rest

/-- `calculateAdaptiveSizeScore`. -/
def calculateAdaptiveSizeScore (query : Str) (area : ℚ) : ℚ :=
  match sizeScoreFromNumbers area (extractNumbers query) with
  | some v => v
  | none => sizeScoreFromWords query area getLearnedSizePreferences

/-- The numeric loop of `calculateAdaptivePriceScore`: first number > 1000
within 30% of the price decides the raw score. -/
def priceScoreFromNumbers (price : ℚ) : List Nat → Option ℚ
  | [] => none
  | n :: rest =>
    if 1000 < n then
      let diff := |price - (n : ℚ)|
      if diff ≤ (n : ℚ) * (1 / 10) then some 40
      else if diff ≤ (n : ℚ) * (2 / 10) then some 20
      else if diff ≤ (n : ℚ) * (3 / 10) then some 10
      else priceScoreFromNumbers price rest
    else priceScoreFromNumbers price rest

/-- The qualitative price words of `calculateAdaptivePriceScore`. -/
def priceWordList : List Str :=
  ["дешево".data, "недорого".data, "дорого".data, "премиум".data]

/-- The price-word loop: the first word contained in the query returns
`min(30, preference/10)` from the learned preferences. -/
def priceScoreFromWords (ld : LearningData) (query : Str) : List Str → Option ℚ
  | [] => none
  | w :: rest =>
    if includesStr w query then
      some (min 30 (jsOr (mapGet ld.userPreferences ("price_".data ++ w)) 0 / 10))
    else priceScoreFromWords ld query rest

/-- `calculateAdaptivePriceScore`. -/
def calculateAdaptivePriceScore (ld : LearningData) (query : Str) (price : ℚ) : ℚ :=
  match priceScoreFromNumbers price (extractNumbers query) with
  | some v => v
  | none => (priceScoreFromWords ld query priceWordList).getD 0

/-- The `features` table of `calculateFeatureScore`: keyword set and the
listing predicate. -/
def featureTable (listing : Listing) : List (List Str × Bool) :=
  [ (["парковка".data, "паркинг".data], listing.hasParking)
  , (["склад".data, "хранение".data], listing.hasStorage)
  , (["центр".data], includesStr ("центр".data) (toLowerStr listing.location))
  , (["метро".data], includesStr ("метро".data) (toLowerStr listing.location))
  , (["первый этаж".data, "1 этаж".data], decide (listing.floor = 1)) ]

/-- `calculateFeatureScore`: for each feature whose keyword occurs in the
query and whose predicate holds, add `25 * (userPreferences[feature_<kw0>] || 1)`. -/
def calculateFeatureScore (ld : LearningData) (query : Str) (listing : Listing) : ℚ :=
  (featureTable listing).foldl
    (fun score f =>
      if f.1.any (fun kw => includesStr kw query) && f.2 then
        score + 25 * jsOr (mapGet ld.userPreferences ("feature_".data ++ f.1.headD [])) 1
      else score)
    0

/-- `calculateContextualScore`: 50 if the listing id was clicked after any
stored query with similarity > 0.7 to the current one. -/
def calculateContextualScore (ld : LearningData) (query : Str) (listing : Listing) : ℚ :=
  let similarQueries := (ld.contextualMappings.map Prod.fst).filter
    (fun savedQuery => decide ((7 : ℚ) / 10 < calculateStringSimilarity query savedQuery))
  if similarQueries.any (fun sq => decide (listing.id ∈ getListOr ld.contextualMappings sq)) then
    50
  else 0

/-- `calculateSemanticSimilarity`: fraction of query tokens of length > 2
that fuzzily match some text token, times 30.  The denominator counts all
tokens `split(/\s+/)` produced, including empty ones. -/
def calculateSemanticSimilarity (query text : Str) : ℚ :=
  let queryWords := splitWs query
  let textWords := splitWs text
  let matchCount := (queryWords.filter (fun qWord =>
    decide (2 < qWord.length) && textWords.any (fun tWord =>
      includesStr qWord tWord || includesStr tWord qWord ||
        decide ((8 : ℚ) / 10 < calculateStringSimilarity qWord tWord)))).length
  ((matchCount : ℚ) / (queryWords.length : ℚ)) * 30

/-- Return type of `calculateAdaptiveScore`. -/
structure ScoreResult where
  score : ℚ
  matchedFeatures : List Str
deriving DecidableEq, Repr

/-- `calculateAdaptiveScore`: the seven additive terms. -/
def calculateAdaptiveScore (ld : LearningData) (query : Str) (listing : Listing) : ScoreResult :=
  let text := toLowerStr (listing.title ++ (" ".data) ++ listing.descr ++ (" ".data) ++
    listing.location ++ (" ".data) ++ listing.ty)
  let weights := ld.featureWeights
  let acc : ℚ × List Str := (0, [])
  let acc :=
    if includesStr query text then
      (acc.1 + jsOr (mapGet weights ("exact_match".data)) 100, acc.2 ++ [("exact_match".data)])
    else acc
  let acc :=
    if (getLearnedTypeKeywords ld listing.ty).any (fun kw => includesStr kw query) then
      (acc.1 + jsOr (mapGet weights ("type_match".data)) 50, acc.2 ++ [("type_match".data)])
    else acc
  let sizeScore := calculateAdaptiveSizeScore query listing.area
  let acc :=
    if 0 < sizeScore then
      (acc.1 + sizeScore * jsOr (mapGet weights ("size_match".data)) 30 / 30,
        acc.2 ++ [("size_match".data)])
    else acc
  let priceScore := calculateAdaptivePriceScore ld query listing.price
  let acc :=
    if 0 < priceScore then
      (acc.1 + priceScore * jsOr (mapGet weights ("price_match".data)) 30 / 30,
        acc.2 ++ [("price_match".data)])
    else acc
  let featureScore := calculateFeatureScore ld query listing
  let acc :=
    if 0 < featureScore then
      (acc.1 + featureScore * jsOr (mapGet weights ("feature_match".data)) 25 / 25,
        acc.2 ++ [("feature_match".data)])
    else acc
  let contextScore := calculateContextualScore ld query listing
  let acc :=
    if 0 < contextScore then (acc.1 + contextScore, acc.2 ++ [("context_match".data)]) else acc
  let semanticScore := calculateSemanticSimilarity query text
  let acc :=
    if 0 < semanticScore then (acc.1 + semanticScore, acc.2 ++ [("semantic_match".data)]) else acc
  { score := acc.1, matchedFeatures := acc.2 }

/-- `calculateTypeBonus` (its `_query` argument is unused in the source). -/
def calculateTypeBonus (ld : LearningData) (ty : Str) : ℚ :=
  min 20 (jsOr (mapGet ld.userPreferences ("type_".data ++ toLowerStr ty)) 0 / 5)

/-- `calculatePopularityScore`: 2 per recorded interaction that clicked the
listing, capped at 15. -/
def calculatePopularityScore (ld : LearningData) (listingId : Str) : ℚ :=
  let clickCount := (ld.successfulQueries.filter
    (fun i => decide (listingId ∈ i.clickedListings))).length
  min 15 ((clickCount : ℚ) * 2)

/-- The effective sort key of the `applyMLRanking` comparator
(`scoreB - scoreA` over base score + type bonus + popularity bonus). -/
def finalScoreKey (ld : LearningData) (r : SearchResult) : ℚ :=
  r.score + calculateTypeBonus ld r.listing.ty + calculatePopularityScore ld r.listing.id

/-- Stable descending insertion: place `a` before the first element whose
key is not greater than `key a`. -/
def insertDesc {α : Type} (key : α → ℚ) (a : α) : List α → List α
  | [] => [a]
  | b :: bs => if key a < key b then b :: insertDesc key a bs else a :: b :: bs

/-- Stable sort, descending by `key` — the behavior ECMAScript specifies
for `Array.prototype.sort` with a numeric key comparator. -/
def sortByDesc {α : Type} (key : α → ℚ) : List α → List α
  | [] => []
  | a :: as => insertDesc key a (sortByDesc key as)

/-- `applyMLRanking`. -/
def applyMLRanking (ld : LearningData) (results : List SearchResult) (_query : Str) :
    List SearchResult :=
  sortByDesc (finalScoreKey ld) results

/-- The ranking pass of `search` (everything after `this.currentQuery = query`,
which touches no learning data). -/
def searchResults (ld : LearningData) (query : Str) (listings : List Listing) : List Listing :=
  let normalizedQuery := trimStr (toLowerStr query)
  if normalizedQuery = [] then listings
  else
    let scoredListings := listings.map (fun listing =>
      let result := calculateAdaptiveScore ld normalizedQuery listing
      { listing := listing, score := result.score, matchedFeatures := result.matchedFeatures
        : SearchResult })
    let rankedListings := applyMLRanking ld scoredListings normalizedQuery
    (rankedListings.filter (fun item => decide (0 < item.score))).map (fun item => item.listing)

/-- `search`: returns the ranked listings and the state with the (raw)
query stored as `currentQuery`. -/
def search (st : EngineState) (query : Str) (listings : List Listing) :
    List Listing × EngineState :=
  (searchResults st.learningData query listings, { st with currentQuery := query })

/-- `updateWeightsBasedOnFeedback`: add `(rating - 3) * 5` to every weight,
clamped into `[5, 150]` (the `forEach`+`set` over the existing keys is a
pointwise value update). -/
def updateWeightsBasedOnFeedback (ld : LearningData) (rating : ℚ) : LearningData :=
  let adjustment := (rating - 3) * 5
  { ld with featureWeights :=
      ld.featureWeights.map (fun p => (p.1, max 5 (min 150 (p.2 + adjustment)))) }

/-- `analyzeSuccessfulQuery`. -/
def analyzeSuccessfulQuery (ld : LearningData) (interaction : UserInteraction) : LearningData :=
  let query := toLowerStr interaction.query
  let words := (splitWs query).filter (fun word => decide (2 < word.length))
  let qp := words.foldl
    (fun qp word => mapSet qp word (((mapGet qp word).getD 0) + 1)) ld.queryPatterns
  let ld := { ld with queryPatterns := qp }
  if 0 < interaction.clickedListings.length then
    { ld with contextualMappings := mapSet ld.contextualMappings query interaction.clickedListings }
  else ld

/-- `recordInteraction` (the trailing `saveLearningData` persists; its
snapshot is modelled by `savedLearningData`). -/
def recordInteraction (ld : LearningData) (interaction : UserInteraction) : LearningData :=
  let ld1 := { ld with successfulQueries := ld.successfulQueries ++ [interaction] }
  let ld2 :=
    if 0 < interaction.clickedListings.length then analyzeSuccessfulQuery ld1 interaction
    else ld1
  match interaction.feedbackRating with
  | some rating => updateWeightsBasedOnFeedback ld2 rating
  | none => ld2

/-- `recordClick`: with a (truthy) current query, append the id to its
contextual mapping unless already present. -/
def recordClick (st : EngineState) (listingId : Str) : EngineState :=
  if st.currentQuery = [] then st
  else
    let existing := getListOr st.learningData.contextualMappings st.currentQuery
    if listingId ∈ existing then st
    else
      let cm := mapSet st.learningData.contextualMappings st.currentQuery (existing ++ [listingId])
      { st with learningData := { st.learningData with contextualMappings := cm } }

/-- `recordFeedback`: with a (truthy) current query, record a synthetic
interaction carrying the rating; `now` stands for `Date.now()`. -/
def recordFeedback (st : EngineState) (rating : ℚ) (now : Nat) : EngineState :=
  if st.currentQuery = [] then st
  else
    let interaction : UserInteraction :=
      { query := st.currentQuery
        timestamp := now
        resultsCount := 0
        clickedListings := []
        feedbackRating := some rating
        sessionId := st.currentSessionId }
    { st with learningData := recordInteraction st.learningData interaction }

/-- The persisted snapshot written by `saveLearningData`:
`successfulQueries.slice(-1000)`, everything else verbatim. -/
def savedLearningData (ld : LearningData) : LearningData :=
  { ld with successfulQueries :=
      ld.successfulQueries.drop (ld.successfulQueries.length - 1000) }

/-- The public operations of the engine. -/
inductive Op where
  | doSearch (q : Str) (listings : List Listing)
  | click (listingId : Str)
  | feedback (rating : ℚ) (now : Nat)
  | interact (i : UserInteraction)
deriving DecidableEq, Repr

/-- State transition of one public call. -/
def step (st : EngineState) : Op → EngineState
  | Op.doSearch q listings => (search st q listings).2
  | Op.click listingId => recordClick st listingId
  | Op.feedback rating now => recordFeedback st rating now
  | Op.interact i => { st with learningData := recordInteraction st.learningData i }

/-- Run a sequence of public calls. -/
def run (ops : List Op) (st : EngineState) : EngineState := ops.foldl step st

/-! ### Derived score notions and concrete fixtures -/

/-- The relevance (base) score of a listing for a normalized query. -/
def baseScoreOf (ld : LearningData) (q : Str) (l : Listing) : ℚ :=
  (calculateAdaptiveScore ld q l).score

/-- The final score used for ordering: base score plus type bonus plus
popularity bonus. -/
def finalScoreOf (ld : LearningData) (q : Str) (l : Listing) : ℚ :=
  baseScoreOf ld q l + calculateTypeBonus ld l.ty + calculatePopularityScore ld l.id

/-- A listing with area 85 and otherwise neutral fields. -/
def item85 : Listing :=
  { id := "i1".data, title := "x".data, descr := [], area := 85, price := 0,
    location := [], ty := [], floor := 0, hasParking := false, hasStorage := false }

/-- Listing `a` (never clicked in `stPop`). -/
def itemA : Listing :=
  { id := "a".data, title := "t".data, descr := [], area := 0, price := 0,
    location := [], ty := [], floor := 0, hasParking := false, hasStorage := false }

/-- Listing `b` (clicked once in `stPop`). -/
def itemB : Listing :=
  { id := "b".data, title := "t".data, descr := [], area := 0, price := 0,
    location := [], ty := [], floor := 0, hasParking := false, hasStorage := false }

/-- An interaction that clicked listing `b`. -/
def interB : UserInteraction :=
  { query := "x".data, timestamp := 0, resultsCount := 1,
    clickedListings := ["b".data], feedbackRating := none, sessionId := [] }

/-- Engine state reached from a fresh engine after recording one interaction
that clicked listing `b` (so `b` carries a popularity bonus of 2). -/
def stPop : EngineState := run [Op.interact interB] (initEngine [])

/-- Engine state reached from a fresh engine after `search("x", [])`
(a current query is set, learning data still at the defaults). -/
def stq : EngineState := run [Op.doSearch ("x".data) []] (initEngine [])

/-- `stq` after one `recordFeedback(1)`. -/
def stFb1 : EngineState := recordFeedback stq 1 0

/-- `stq` after two `recordFeedback(1)`. -/
def stFb2 : EngineState := recordFeedback stFb1 1 1

/-- `stq` after three `recordFeedback(1)`. -/
def stFb3 : EngineState := recordFeedback stFb2 1 2

/-- A minimal interaction (no clicks, no rating). -/
def interPlain : UserInteraction :=
  { query := "q".data, timestamp := 0, resultsCount := 0,
    clickedListings := [], feedbackRating := none, sessionId := [] }

/-- An interaction whose raw query has a leading space and uppercase
letters, and which clicked listing `z`. -/
def interUpper : UserInteraction :=
  { query := " ABC DEF".data, timestamp := 0, resultsCount := 0,
    clickedListings := ["z".data], feedbackRating := none, sessionId := [] }

/-- Engine state reached from a fresh engine after `search("Shop X", [])`
followed by `recordClick("id1")`. -/
def stClick : EngineState :=
  run [Op.doSearch ("Shop X".data) [], Op.click ("id1".data)] (initEngine [])

/-- The per-listing scored record built inside `search`. -/
def scoredOf (ld : LearningData) (nq : Str) (l : Listing) : SearchResult :=
  { listing := l
    score := (calculateAdaptiveScore ld nq l).score
    matchedFeatures := (calculateAdaptiveScore ld nq l).matchedFeatures }

/-- The property C9 asserts about map keys. -/
def normalKey (t : Str) : Prop := toLowerStr t = t ∧ trimStr t = t

/-! ### Edit-distance lemmas -/

theorem levFuel_congr :
    ∀ (f g : Nat) (a b : Str), a.length + b.length ≤ f → a.length + b.length ≤ g →
      levFuel f a b = levFuel g a b := by
  intro f
  induction f with
  | zero =>
    intro g a b hf _
    cases a with
    | nil => cases g <;> rfl
    | cons x xs =>
      cases b with
      | nil => cases g <;> rfl
      | cons y ys => simp [List.length_cons] at hf
  | succ f ih =>
    intro g a b hf hg
    cases a with
    | nil => cases g <;> rfl
    | cons x xs =>
      cases b with
      | nil => cases g <;> rfl
      | cons y ys =>
        cases g with
        | zero => simp [List.length_cons] at hg
        | succ g =>
          simp only [List.length_cons] at hf hg
          have h1 : xs.length + ys.length ≤ f := by omega
          have h1g : xs.length + ys.length ≤ g := by omega
          have h2 : (x :: xs).length + ys.length ≤ f := by simp; omega
          have h2g : (x :: xs).length + ys.length ≤ g := by simp; omega
          have h3 : xs.length + (y :: ys).length ≤ f := by simp; omega
          have h3g : xs.length + (y :: ys).length ≤ g := by simp; omega
          simp only [levFuel, ih _ _ _ h1 h1g, ih _ _ _ h2 h2g, ih _ _ _ h3 h3g]

theorem levenshteinDistance_nil_left (b : Str) : levenshteinDistance [] b = b.length := by
  cases b <;> rfl

theorem levenshteinDistance_nil_right (a : Str) : levenshteinDistance a [] = a.length := by
  cases a <;> rfl

theorem levenshteinDistance_cons_cons (x y : Char) (xs ys : Str) :
    levenshteinDistance (x :: xs) (y :: ys) =
      if x = y then levenshteinDistance xs ys
      else
        min (levenshteinDistance xs ys)
          (min (levenshteinDistance (x :: xs) ys) (levenshteinDistance xs (y :: ys))) + 1 := by
  show levFuel ((x :: xs).length + (y :: ys).length) (x :: xs) (y :: ys) = _
  have hs : (x :: xs).length + (y :: ys).length = (xs.length + ys.length) + 2 := by
    simp; omega
  rw [hs]
  simp only [levFuel]
  rw [levFuel_congr (xs.length + ys.length + 1) (xs.length + ys.length) xs ys (by omega) le_rfl,
    levFuel_congr (xs.length + ys.length + 1) ((x :: xs).length + ys.length) (x :: xs) ys
      (by simp; omega) le_rfl,
    levFuel_congr (xs.length + ys.length + 1) (xs.length + (y :: ys).length) xs (y :: ys)
      (by simp; omega) le_rfl]
  rfl

theorem levenshteinDistance_self (a : Str) : levenshteinDistance a a = 0 := by
  induction a with
  | nil => rfl
  | cons x xs ih => rw [levenshteinDistance_cons_cons]; simp [ih]

theorem levenshteinDistance_comm (a b : Str) : levenshteinDistance a b = levenshteinDistance b a := by
  generalize hn : a.length + b.length = n
  induction n using Nat.strong_induction_on generalizing a b with
  | _ n ih =>
    cases a with
    | nil => rw [levenshteinDistance_nil_left, levenshteinDistance_nil_right]
    | cons x xs =>
      cases b with
      | nil => rw [levenshteinDistance_nil_left, levenshteinDistance_nil_right]
      | cons y ys =>
        rw [levenshteinDistance_cons_cons, levenshteinDistance_cons_cons]
        simp only [List.length_cons] at hn
        rw [ih (xs.length + ys.length) (by omega) xs ys rfl,
          ih (xs.length + (y :: ys).length) (by simp; omega) (x :: xs) ys (by simp; omega),
          ih ((x :: xs).length + ys.length) (by simp; omega) xs (y :: ys) (by simp; omega)]
        by_cases h : x = y
        · simp [h, eq_comm]
        · have h' : ¬ y = x := fun hyx => h hyx.symm
          simp only [h, h', if_false]
          rw [min_comm (levenshteinDistance ys (x :: xs)) (levenshteinDistance (y :: ys) xs)]

theorem levenshteinDistance_le_max (a b : Str) :
    levenshteinDistance a b ≤ max a.length b.length := by
  generalize hn : a.length + b.length = n
  induction n using Nat.strong_induction_on generalizing a b with
  | _ n ih =>
    cases a with
    | nil => rw [levenshteinDistance_nil_left]; simp
    | cons x xs =>
      cases b with
      | nil => rw [levenshteinDistance_nil_right]; simp
      | cons y ys =>
        rw [levenshteinDistance_cons_cons]
        simp only [List.length_cons] at hn
        by_cases h : x = y
        · simp only [h, if_true]
          calc levenshteinDistance xs ys ≤ max xs.length ys.length :=
                ih (xs.length + ys.length) (by omega) xs ys rfl
            _ ≤ max (x :: xs).length (y :: ys).length := by simp; omega
        · simp only [h, if_false]
          have hd : levenshteinDistance xs ys ≤ max xs.length ys.length :=
            ih (xs.length + ys.length) (by omega) xs ys rfl
          have : min (levenshteinDistance xs ys)
              (min (levenshteinDistance (x :: xs) ys) (levenshteinDistance xs (y :: ys)))
              ≤ levenshteinDistance xs ys := min_le_left _ _
          simp only [List.length_cons]
          omega

theorem calculateStringSimilarity_eq_formula (a b : Str) :
    calculateStringSimilarity a b =
      if max a.length b.length = 0 then 1
      else ((max a.length b.length : ℚ) - (levenshteinDistance a b : ℚ)) /
        (max a.length b.length : ℚ) := by
  unfold calculateStringSimilarity
  by_cases hab : b.length < a.length
  · simp only [hab, if_true]
    rw [Nat.max_eq_left (Nat.le_of_lt hab),
      max_eq_left (show ((b.length : ℚ)) ≤ ((a.length : ℚ)) by exact_mod_cast Nat.le_of_lt hab)]
  · simp only [hab, if_false]
    rw [Nat.max_eq_right (Nat.le_of_not_lt hab),
      max_eq_right (show ((a.length : ℚ)) ≤ ((b.length : ℚ)) by
        exact_mod_cast Nat.le_of_not_lt hab),
      levenshteinDistance_comm b a]

theorem calculateStringSimilarity_mem_unit (a b : Str) :
    0 ≤ calculateStringSimilarity a b ∧ calculateStringSimilarity a b ≤ 1 := by
  rw [calculateStringSimilarity_eq_formula]
  by_cases h : max a.length b.length = 0
  · simp [h]
  · simp only [h, if_false]
    have hL : (0 : ℚ) < (max a.length b.length : ℚ) := by
      have : 0 < max a.length b.length := Nat.pos_of_ne_zero h
      exact_mod_cast this
    have hd : (levenshteinDistance a b : ℚ) ≤ (max a.length b.length : ℚ) := by
      exact_mod_cast levenshteinDistance_le_max a b
    have hd0 : (0 : ℚ) ≤ (levenshteinDistance a b : ℚ) := by positivity
    constructor
    · apply div_nonneg _ (le_of_lt hL)
      linarith
    · rw [div_le_one hL]
      linarith

theorem calculateStringSimilarity_self (a : Str) : calculateStringSimilarity a a = 1 := by
  rw [calculateStringSimilarity_eq_formula]
  by_cases h : a.length = 0
  · simp [h]
  · simp only [max_self, h, if_false, levenshteinDistance_self, Nat.cast_zero, sub_zero]
    exact div_self (by exact_mod_cast h)

/-- C7: `calculateStringSimilarity` always lies in `[0, 1]`, equals the
normalized edit distance `(max(len a, len b) - levenshtein(a, b)) / max(len a, len b)`
(with the empty-vs-empty case defined as 1), and is 1 on identical strings. -/
theorem C7_similarity_contract :
    (∀ a b : Str,
      0 ≤ calculateStringSimilarity a b ∧ calculateStringSimilarity a b ≤ 1 ∧
      calculateStringSimilarity a b =
        if max a.length b.length = 0 then 1
        else ((max a.length b.length : ℚ) - (levenshteinDistance a b : ℚ)) /
          (max a.length b.length : ℚ)) ∧
    (∀ a : Str, calculateStringSimilarity a a = 1) ∧
    calculateStringSimilarity [] [] = 1 := by
  refine ⟨fun a b => ?_, calculateStringSimilarity_self, calculateStringSimilarity_self []⟩
  obtain ⟨h0, h1⟩ := calculateStringSimilarity_mem_unit a b
  exact ⟨h0, h1, calculateStringSimilarity_eq_formula a b⟩

/-! ### Stable-sort lemmas -/

theorem insertDesc_perm {α : Type} (key : α → ℚ) (a : α) (l : List α) :
    (insertDesc key a l).Perm (a :: l) := by
  induction l with
  | nil => exact List.Perm.refl _
  | cons b bs ih =>
    unfold insertDesc
    by_cases h : key a < key b
    · simp only [h, if_true]
      exact (ih.cons b).trans (List.Perm.swap a b bs)
    · simp [h]

theorem sortByDesc_perm {α : Type} (key : α → ℚ) (l : List α) :
    (sortByDesc key l).Perm l := by
  induction l with
  | nil => exact List.Perm.refl _
  | cons a as ih => exact (insertDesc_perm key a (sortByDesc key as)).trans (ih.cons a)

theorem pairwise_insertDesc {α : Type} (key : α → ℚ) (a : α) (l : List α)
    (h : l.Pairwise (fun x y => key y ≤ key x)) :
    (insertDesc key a l).Pairwise (fun x y => key y ≤ key x) := by
  induction l with
  | nil => simp [insertDesc]
  | cons b bs ih =>
    rw [List.pairwise_cons] at h
    obtain ⟨hb, hbs⟩ := h
    unfold insertDesc
    by_cases hk : key a < key b
    · simp only [hk, if_true]
      rw [List.pairwise_cons]
      refine ⟨fun y hy => ?_, ih hbs⟩
      rcases List.mem_cons.mp (((insertDesc_perm key a bs).mem_iff).mp hy) with hya | hybs
      · exact hya ▸ le_of_lt hk
      · exact hb y hybs
    · simp only [hk, if_false]
      rw [List.pairwise_cons]
      refine ⟨fun y hy => ?_, List.pairwise_cons.mpr ⟨hb, hbs⟩⟩
      rcases List.mem_cons.mp hy with hyb | hybs
      · exact hyb ▸ le_of_not_lt hk
      · exact le_trans (hb y hybs) (le_of_not_lt hk)

theorem pairwise_sortByDesc {α : Type} (key : α → ℚ) (l : List α) :
    (sortByDesc key l).Pairwise (fun x y => key y ≤ key x) := by
  induction l with
  | nil => simp [sortByDesc]
  | cons a as ih => exact pairwise_insertDesc key a _ ih

theorem filter_insertDesc {α : Type} (key : α → ℚ) (p : α → Bool)
    (hp : ∀ x y, p x = true → p y = true → key x = key y) (a : α) (l : List α) :
    (insertDesc key a l).filter p = if p a then a :: l.filter p else l.filter p := by
  induction l with
  | nil => cases hpa : p a <;> simp [insertDesc, List.filter, hpa]
  | cons b bs ih =>
    unfold insertDesc
    by_cases hk : key a < key b
    · simp only [hk, if_true, List.filter_cons]
      cases hpb : p b with
      | false => simp [hpb, ih]
      | true =>
        cases hpa : p a with
        | false => simp [hpa, hpb, ih]
        | true => exact absurd (hp a b hpa hpb) (ne_of_lt hk)
    · simp [hk, List.filter_cons]

theorem filter_sortByDesc {α : Type} (key : α → ℚ) (p : α → Bool)
    (hp : ∀ x y, p x = true → p y = true → key x = key y) (l : List α) :
    (sortByDesc key l).filter p = l.filter p := by
  induction l with
  | nil => rfl
  | cons a as ih =>
    show (insertDesc key a (sortByDesc key as)).filter p = _
    rw [filter_insertDesc key p hp, List.filter_cons]
    cases hpa : p a <;> simp [hpa, ih]

/-! ### Ranking (C1) -/

theorem searchResults_eq_of_ne (ld : LearningData) (q : Str) (S : List Listing)
    (h : trimStr (toLowerStr q) ≠ []) :
    searchResults ld q S =
      ((sortByDesc (finalScoreKey ld)
          (S.map (scoredOf ld (trimStr (toLowerStr q))))).filter
        (fun r => decide (0 < r.score))).map SearchResult.listing := by
  unfold searchResults applyMLRanking scoredOf
  rw [if_neg h]

theorem mem_sorted_scored (ld : LearningData) (nq : Str) (S : List Listing) (r : SearchResult)
    (hr : r ∈ sortByDesc (finalScoreKey ld) (S.map (scoredOf ld nq))) :
    ∃ l ∈ S, r = scoredOf ld nq l := by
  have hmem : r ∈ S.map (scoredOf ld nq) :=
    ((sortByDesc_perm (finalScoreKey ld) (S.map (scoredOf ld nq))).mem_iff).mp hr
  rcases List.mem_map.mp hmem with ⟨l, hl, hfl⟩
  exact ⟨l, hl, hfl.symm⟩

theorem scoredOf_listing (ld : LearningData) (nq : Str) (l : Listing) :
    (scoredOf ld nq l).listing = l := rfl

theorem scoredOf_score (ld : LearningData) (nq : Str) (l : Listing) :
    (scoredOf ld nq l).score = baseScoreOf ld nq l := rfl

theorem finalScoreKey_scoredOf (ld : LearningData) (nq : Str) (l : Listing) :
    finalScoreKey ld (scoredOf ld nq l) = finalScoreOf ld nq l := rfl

/-- C1 (amended): for every query whose normalized form is non-empty,
`search` returns only listings of the input, each with base relevance score
> 0, ordered descending by final score (base + type bonus + popularity
bonus), and, for any fixed final-score value, the returned listings with
that value are exactly the qualifying input listings in their original
relative order (stability). -/
theorem C1_rank_contract (st : EngineState) (q : Str) (S : List Listing)
    (h : trimStr (toLowerStr q) ≠ []) :
    (∀ x ∈ (search st q S).1, x ∈ S) ∧
    (∀ x ∈ (search st q S).1, 0 < baseScoreOf st.learningData (trimStr (toLowerStr q)) x) ∧
    (search st q S).1.Pairwise (fun x y =>
      finalScoreOf st.learningData (trimStr (toLowerStr q)) y ≤
        finalScoreOf st.learningData (trimStr (toLowerStr q)) x) ∧
    (∀ v : ℚ,
      (search st q S).1.filter
          (fun x => decide (finalScoreOf st.learningData (trimStr (toLowerStr q)) x = v)) =
        S.filter (fun x =>
          decide (0 < baseScoreOf st.learningData (trimStr (toLowerStr q)) x ∧
            finalScoreOf st.learningData (trimStr (toLowerStr q)) x = v))) := by
  have hres : (search st q S).1 =
      ((sortByDesc (finalScoreKey st.learningData)
          (S.map (scoredOf st.learningData (trimStr (toLowerStr q))))).filter
        (fun r => decide (0 < r.score))).map SearchResult.listing :=
    searchResults_eq_of_ne st.learningData q S h
  set ld := st.learningData with hld
  set nq := trimStr (toLowerStr q) with hnq
  set sorted := sortByDesc (finalScoreKey ld) (S.map (scoredOf ld nq)) with hsorted
  refine ⟨?_, ?_, ?_, ?_⟩
  · intro x hx
    rw [hres] at hx
    rcases List.mem_map.mp hx with ⟨r, hrf, hrx⟩
    rcases mem_sorted_scored ld nq S r (List.mem_filter.mp hrf).1 with ⟨l, hlS, rfl⟩
    exact hrx ▸ hlS
  · intro x hx
    rw [hres] at hx
    rcases List.mem_map.mp hx with ⟨r, hrf, hrx⟩
    have hP := (List.mem_filter.mp hrf).2
    rcases mem_sorted_scored ld nq S r (List.mem_filter.mp hrf).1 with ⟨l, _, rfl⟩
    have : 0 < (scoredOf ld nq l).score := of_decide_eq_true hP
    rw [← hrx]
    exact this
  · rw [hres]
    rw [List.pairwise_map]
    have hpw : sorted.Pairwise (fun r s => finalScoreKey ld s ≤ finalScoreKey ld r) :=
      pairwise_sortByDesc (finalScoreKey ld) (S.map (scoredOf ld nq))
    have hpwf := List.Pairwise.sublist
      (@List.filter_sublist SearchResult (fun r => decide (0 < r.score)) sorted) hpw
    refine List.Pairwise.imp_of_mem ?_ hpwf
    intro a b ha hb hK
    rcases mem_sorted_scored ld nq S a (List.mem_of_mem_filter ha) with ⟨la, _, rfl⟩
    rcases mem_sorted_scored ld nq S b (List.mem_of_mem_filter hb) with ⟨lb, _, rfl⟩
    exact hK
  · intro v
    rw [hres, List.filter_map, List.filter_filter]
    have hcongr : ∀ r ∈ sorted,
        (((fun x => decide (finalScoreOf ld nq x = v)) ∘ SearchResult.listing) r &&
          decide (0 < r.score)) =
          (fun r => decide (0 < r.score ∧ finalScoreKey ld r = v)) r := by
      intro r hr
      rcases mem_sorted_scored ld nq S r hr with ⟨l, _, rfl⟩
      show (decide (finalScoreOf ld nq l = v) && decide (0 < baseScoreOf ld nq l)) = _
      by_cases h1 : 0 < baseScoreOf ld nq l <;> by_cases h2 : finalScoreOf ld nq l = v <;>
        simp [h1, h2, finalScoreKey_scoredOf, scoredOf_score]
    rw [List.filter_congr hcongr]
    rw [hsorted, filter_sortByDesc _ _ (fun x y hx hy =>
      ((of_decide_eq_true hx).2).trans ((of_decide_eq_true hy).2).symm)]
    rw [List.filter_map, List.map_map]
    have hid : ∀ l ∈ S.filter
        ((fun r => decide (0 < r.score ∧ finalScoreKey ld r = v)) ∘ scoredOf ld nq),
        (SearchResult.listing ∘ scoredOf ld nq) l = id l := fun l _ => rfl
    rw [List.map_congr_left hid, List.map_id]
    refine List.filter_congr ?_
    intro l _
    rfl

/-- Witness for C1: on the fresh engine, query `"80"` over `[item85]`, the
normalized query is non-empty and the returned listing has positive base
score. -/
theorem C1_rank_contract_witness :
    0 < baseScoreOf (initEngine []).learningData (trimStr (toLowerStr ("80".data))) item85 :=
  (C1_rank_contract (initEngine []) ("80".data) [item85]
    (by with_unfolding_all decide)).2.1 item85 (by with_unfolding_all decide)

/-- C1 counterexample: as stated (over every query), the claim fails on the
empty query.  From a fresh engine, record one interaction that clicked
listing `b`; then `search("", [a, b])` passes the input through unchanged,
although `b`'s final score (base + type bonus + popularity bonus) exceeds
`a`'s, so the result is not ordered descending by final score. -/
theorem C1_counterexample :
    (search stPop [] [itemA, itemB]).1 = [itemA, itemB] ∧
    finalScoreOf stPop.learningData (trimStr (toLowerStr [])) itemA <
      finalScoreOf stPop.learningData (trimStr (toLowerStr [])) itemB ∧
    ¬ (search stPop [] [itemA, itemB]).1.Pairwise (fun x y =>
      finalScoreOf stPop.learningData (trimStr (toLowerStr [])) y ≤
        finalScoreOf stPop.learningData (trimStr (toLowerStr [])) x) := by
  refine ⟨rfl, by with_unfolding_all decide, ?_⟩
  intro hpw
  have : finalScoreOf stPop.learningData (trimStr (toLowerStr [])) itemB ≤
      finalScoreOf stPop.learningData (trimStr (toLowerStr [])) itemA := by
    have h := List.pairwise_cons.mp hpw
    exact h.1 itemB (by simp)
  have hlt : finalScoreOf stPop.learningData (trimStr (toLowerStr [])) itemA <
      finalScoreOf stPop.learningData (trimStr (toLowerStr [])) itemB := by
    with_unfolding_all decide
  exact absurd this (not_le.mpr hlt)

/-! ### Weight-bound invariant (C2) -/

theorem featureWeights_recordClick (st : EngineState) (listingId : Str) :
    (recordClick st listingId).learningData.featureWeights =
      st.learningData.featureWeights := by
  by_cases h1 : st.currentQuery = [] <;>
    by_cases h2 : listingId ∈ getListOr st.learningData.contextualMappings st.currentQuery <;>
    simp [recordClick, h1, h2]

theorem featureWeights_analyze (ld : LearningData) (i : UserInteraction) :
    (analyzeSuccessfulQuery ld i).featureWeights = ld.featureWeights := by
  unfold analyzeSuccessfulQuery
  split_ifs <;> rfl

theorem clamp_mem_Icc (w adj : ℚ) :
    5 ≤ max 5 (min 150 (w + adj)) ∧ max 5 (min 150 (w + adj)) ≤ 150 :=
  ⟨le_max_left _ _, max_le (by norm_num) (min_le_left _ _)⟩

theorem weights_updateWeights (ld : LearningData) (r : ℚ) :
    ∀ p ∈ (updateWeightsBasedOnFeedback ld r).featureWeights, 5 ≤ p.2 ∧ p.2 ≤ 150 := by
  intro p hp
  unfold updateWeightsBasedOnFeedback at hp
  rcases List.mem_map.mp hp with ⟨q, _, rfl⟩
  exact clamp_mem_Icc q.2 _

theorem weights_inv_recordInteraction (ld : LearningData) (i : UserInteraction)
    (h : ∀ p ∈ ld.featureWeights, 5 ≤ p.2 ∧ p.2 ≤ 150) :
    ∀ p ∈ (recordInteraction ld i).featureWeights, 5 ≤ p.2 ∧ p.2 ≤ 150 := by
  intro p hp
  unfold recordInteraction at hp
  cases hr : i.feedbackRating with
  | some r =>
    simp only [hr] at hp
    exact weights_updateWeights _ r p hp
  | none =>
    simp only [hr] at hp
    by_cases hc : 0 < i.clickedListings.length
    · simp only [hc, if_true, featureWeights_analyze] at hp
      exact h p hp
    · simp only [hc, if_false] at hp
      exact h p hp

theorem step_weights_inv (st : EngineState) (op : Op)
    (h : ∀ p ∈ st.learningData.featureWeights, 5 ≤ p.2 ∧ p.2 ≤ 150) :
    ∀ p ∈ (step st op).learningData.featureWeights, 5 ≤ p.2 ∧ p.2 ≤ 150 := by
  cases op with
  | doSearch q listings => exact h
  | click listingId => rw [step, featureWeights_recordClick]; exact h
  | feedback rating now =>
    show ∀ p ∈ (recordFeedback st rating now).learningData.featureWeights, _
    unfold recordFeedback
    split_ifs with hq
    · exact h
    · exact weights_inv_recordInteraction _ _ h
  | interact i => exact weights_inv_recordInteraction _ _ h

/-- C2: starting from the default learning state, every entry of
`featureWeights` stays in `[5, 150]` after every sequence of public engine
operations; the feedback adjustment `(rating - 3) * 5` is re-clamped into
the interval for each weight individually. -/
theorem C2_weight_bounds (ops : List Op) (sid : Str) :
    ∀ p ∈ (run ops (initEngine sid)).learningData.featureWeights, 5 ≤ p.2 ∧ p.2 ≤ 150 := by
  suffices hgen : ∀ (ops : List Op) (st : EngineState),
      (∀ p ∈ st.learningData.featureWeights, 5 ≤ p.2 ∧ p.2 ≤ 150) →
      ∀ p ∈ (run ops st).learningData.featureWeights, 5 ≤ p.2 ∧ p.2 ≤ 150 by
    apply hgen
    intro p hp
    simp only [initEngine, defaultLearningData, List.mem_cons, List.mem_singleton,
      List.not_mem_nil, or_false] at hp
    rcases hp with rfl | rfl | rfl | rfl | rfl | rfl | rfl | rfl <;>
      constructor <;> norm_num
  intro ops
  induction ops with
  | nil => intro st h; exact h
  | cons op rest ih => intro st h; exact ih _ (step_weights_inv st op h)

/-- Witness for C2: with no operations, the default `exact_match` weight 100
lies in `[5, 150]`. -/
theorem C2_weight_bounds_witness : 5 ≤ (100 : ℚ) ∧ (100 : ℚ) ≤ 150 :=
  C2_weight_bounds [] [] (("exact_match".data, 100)) (by with_unfolding_all decide)

/-! ### Feedback monotonicity (C3) -/

theorem recordFeedback_featureWeights (st : EngineState) (r : ℚ) (now : Nat)
    (hq : st.currentQuery ≠ []) :
    (recordFeedback st r now).learningData.featureWeights =
      st.learningData.featureWeights.map
        (fun p => (p.1, max 5 (min 150 (p.2 + (r - 3) * 5)))) := by
  unfold recordFeedback recordInteraction updateWeightsBasedOnFeedback
  simp [hq]

theorem mem_zip_map_self {α β : Type} (g : α → β) (l : List α) :
    ∀ q ∈ l.zip (l.map g), q.2 = g q.1 := by
  induction l with
  | nil => simp
  | cons a as ih =>
    intro q hq
    simp only [List.map_cons, List.zip_cons_cons, List.mem_cons] at hq
    rcases hq with rfl | h
    · rfl
    · exact ih q h

theorem le_clamp_of_nonneg (w adj : ℚ) (hw : w ≤ 150) (hadj : 0 ≤ adj) :
    w ≤ max 5 (min 150 (w + adj)) := by
  rcases le_total (w + adj) 150 with h | h
  · rw [min_eq_right h]
    exact le_trans (by linarith) (le_max_right _ _)
  · rw [min_eq_left h]
    exact le_trans hw (le_max_right _ _)

theorem clamp_le_of_nonpos (w adj : ℚ) (hw : 5 ≤ w) (hadj : adj ≤ 0) :
    max 5 (min 150 (w + adj)) ≤ w := by
  apply max_le hw
  exact le_trans (min_le_right _ _) (by linarith)

/-- C3: with a current query set and weights in range, `recordFeedback(5)`
moves every weight up (entrywise `≤`, capped at 150) and `recordFeedback(1)`
moves every weight down (entrywise `≥`, floored at 5); concretely, from the
default state with a query set, three `recordFeedback(1)` calls take
`featureWeights[exact_match]` through 100 → 90 → 80 → 70. -/
theorem C3_feedback_monotonicity :
    (∀ (st : EngineState) (now : Nat), st.currentQuery ≠ [] →
      (∀ p ∈ st.learningData.featureWeights, 5 ≤ p.2 ∧ p.2 ≤ 150) →
      ∀ q ∈ st.learningData.featureWeights.zip
          (recordFeedback st 5 now).learningData.featureWeights,
        q.1.1 = q.2.1 ∧ q.1.2 ≤ q.2.2) ∧
    (∀ (st : EngineState) (now : Nat), st.currentQuery ≠ [] →
      (∀ p ∈ st.learningData.featureWeights, 5 ≤ p.2 ∧ p.2 ≤ 150) →
      ∀ q ∈ st.learningData.featureWeights.zip
          (recordFeedback st 1 now).learningData.featureWeights,
        q.1.1 = q.2.1 ∧ q.2.2 ≤ q.1.2) ∧
    (mapGet stq.learningData.featureWeights ("exact_match".data) = some 100 ∧
     mapGet stFb1.learningData.featureWeights ("exact_match".data) = some 90 ∧
     mapGet stFb2.learningData.featureWeights ("exact_match".data) = some 80 ∧
     mapGet stFb3.learningData.featureWeights ("exact_match".data) = some 70) := by
  refine ⟨?_, ?_, ?_⟩
  · intro st now hq hw q hmem
    rw [recordFeedback_featureWeights st 5 now hq] at hmem
    have h2 := mem_zip_map_self _ _ q hmem
    have h1 : q.1 ∈ st.learningData.featureWeights := (List.of_mem_zip hmem).1
    refine ⟨by rw [h2], ?_⟩
    rw [h2]
    exact le_clamp_of_nonneg q.1.2 _ (hw q.1 h1).2 (by norm_num)
  · intro st now hq hw q hmem
    rw [recordFeedback_featureWeights st 1 now hq] at hmem
    have h2 := mem_zip_map_self _ _ q hmem
    have h1 : q.1 ∈ st.learningData.featureWeights := (List.of_mem_zip hmem).1
    refine ⟨by rw [h2], ?_⟩
    rw [h2]
    exact clamp_le_of_nonpos q.1.2 _ (hw q.1 h1).1 (by norm_num)
  · refine ⟨?_, ?_, ?_, ?_⟩ <;> with_unfolding_all decide

/-- Witness for C3: applying the rating-5 monotonicity at the concrete state
`stq` and the `exact_match` entry (100 before, 110 after). -/
theorem C3_feedback_monotonicity_witness :
    (("exact_match".data, (100 : ℚ)).1 = ("exact_match".data, (110 : ℚ)).1) ∧
      (("exact_match".data, (100 : ℚ)).2 ≤ ("exact_match".data, (110 : ℚ)).2) :=
  C3_feedback_monotonicity.1 stq 0 (by with_unfolding_all decide)
    (by with_unfolding_all decide)
    (("exact_match".data, (100 : ℚ)), ("exact_match".data, (110 : ℚ)))
    (by with_unfolding_all decide)

/-! ### Empty query (C4), feedback frame (C10), invalid feedback (C5) -/

/-- C4: a query that is empty after lower-casing and trimming makes `search`
return the input listings unchanged (no scoring, no filtering). -/
theorem C4_empty_query_identity (st : EngineState) (q : Str) (listings : List Listing)
    (h : trimStr (toLowerStr q) = []) :
    (search st q listings).1 = listings := by
  show searchResults st.learningData q listings = listings
  unfold searchResults
  rw [if_pos h]

/-- Witness for C4: a whitespace-only query passes `[item85]` through. -/
theorem C4_empty_query_identity_witness :
    (search (initEngine []) ("  ".data) [item85]).1 = [item85] :=
  C4_empty_query_identity (initEngine []) ("  ".data) [item85] (by decide)

/-- C10: `recordFeedback` (any rating, any state) leaves `queryPatterns`,
`userPreferences`, `contextualMappings` and the session fields unchanged —
the synthetic interaction has no clicked listings, so only `featureWeights`
and the interaction log can change. -/
theorem C10_feedback_frame (st : EngineState) (r : ℚ) (now : Nat) :
    (recordFeedback st r now).learningData.queryPatterns = st.learningData.queryPatterns ∧
    (recordFeedback st r now).learningData.userPreferences = st.learningData.userPreferences ∧
    (recordFeedback st r now).learningData.contextualMappings =
      st.learningData.contextualMappings ∧
    (recordFeedback st r now).currentSessionId = st.currentSessionId ∧
    (recordFeedback st r now).currentQuery = st.currentQuery := by
  unfold recordFeedback recordInteraction updateWeightsBasedOnFeedback
  by_cases hq : st.currentQuery = [] <;> simp [hq]

/-- C5 counterexample: the rating 6 lies outside 1..5, a current query is
set, and `recordFeedback(6)` is not a no-op — it bumps `exact_match` from
100 to 115 (adjustment `(6-3)*5`, clamped). -/
theorem C5_counterexample :
    ¬ ((1 : ℚ) ≤ 6 ∧ (6 : ℚ) ≤ 5) ∧
    stq.currentQuery ≠ [] ∧
    (recordFeedback stq 6 0).learningData ≠ stq.learningData ∧
    mapGet (recordFeedback stq 6 0).learningData.featureWeights ("exact_match".data) =
      some 115 := by
  refine ⟨by norm_num, by decide, ?_, ?_⟩ <;> with_unfolding_all decide

/-- C5 (amended): the engine never validates the rating.  A feedback or
click event with no current query set is a silent no-op; with a current
query set, `recordFeedback` applies the clamped weight adjustment for every
rating, in range or not. -/
theorem C5_invalid_feedback (st : EngineState) (r : ℚ) (now : Nat) (listingId : Str) :
    (st.currentQuery = [] → recordFeedback st r now = st) ∧
    (st.currentQuery = [] → recordClick st listingId = st) ∧
    (st.currentQuery ≠ [] →
      (recordFeedback st r now).learningData.featureWeights =
        st.learningData.featureWeights.map
          (fun p => (p.1, max 5 (min 150 (p.2 + (r - 3) * 5))))) := by
  refine ⟨fun hq => ?_, fun hq => ?_, fun hq => recordFeedback_featureWeights st r now hq⟩
  · unfold recordFeedback
    rw [if_pos hq]
  · unfold recordClick
    rw [if_pos hq]

/-- Witness for C5 (amended): an out-of-range rating on a fresh engine
(no current query) leaves the state untouched. -/
theorem C5_invalid_feedback_witness :
    recordFeedback (initEngine []) 7 0 = initEngine [] :=
  (C5_invalid_feedback (initEngine []) 7 0 []).1 rfl

/-! ### Interaction log (C6) -/

theorem successfulQueries_analyze (ld : LearningData) (i : UserInteraction) :
    (analyzeSuccessfulQuery ld i).successfulQueries = ld.successfulQueries := by
  unfold analyzeSuccessfulQuery
  split_ifs <;> rfl

theorem successfulQueries_recordInteraction (ld : LearningData) (i : UserInteraction) :
    (recordInteraction ld i).successfulQueries = ld.successfulQueries ++ [i] := by
  unfold recordInteraction updateWeightsBasedOnFeedback
  cases hr : i.feedbackRating <;>
    by_cases hc : 0 < i.clickedListings.length <;>
    simp [hr, hc, successfulQueries_analyze]

theorem run_replicate_interact_log (n : Nat) (i : UserInteraction) :
    ∀ st : EngineState,
      (run (List.replicate n (Op.interact i)) st).learningData.successfulQueries =
        st.learningData.successfulQueries ++ List.replicate n i := by
  induction n with
  | zero => intro st; simp [run]
  | succ n ih =>
    intro st
    rw [List.replicate_succ]
    show (run (List.replicate n (Op.interact i))
      (step st (Op.interact i))).learningData.successfulQueries = _
    rw [ih]
    show ((recordInteraction st.learningData i).successfulQueries ++ _) = _
    rw [successfulQueries_recordInteraction, List.append_assoc, List.singleton_append,
      ← List.replicate_succ]

/-- C6 counterexample: after 1001 `recordInteraction` calls the in-memory
interaction log holds 1001 entries, not 1000 — the code only truncates the
copy persisted by `saveLearningData`. -/
theorem C6_counterexample :
    (run (List.replicate 1001 (Op.interact interPlain))
        (initEngine [])).learningData.successfulQueries.length ≠ 1000 := by
  rw [run_replicate_interact_log]
  show (([] : List UserInteraction) ++ List.replicate 1001 interPlain).length ≠ 1000
  rw [List.nil_append, List.length_replicate]
  omega

/-- C6 (amended): the in-memory log accumulates every interaction (n calls
⇒ length n); the 1000-entry truncation applies to the persisted snapshot,
which keeps exactly the most recent `min 1000 n` entries as a suffix (in
arrival order) and has length exactly 1000 once the log exceeds 1000. -/
theorem C6_log_truncation :
    (∀ (n : Nat) (i : UserInteraction) (sid : Str),
      (run (List.replicate n (Op.interact i)) (initEngine sid)).learningData.successfulQueries =
        List.replicate n i) ∧
    (∀ ld : LearningData,
      (savedLearningData ld).successfulQueries =
        ld.successfulQueries.drop (ld.successfulQueries.length - 1000) ∧
      (savedLearningData ld).successfulQueries.length = min 1000 ld.successfulQueries.length ∧
      (savedLearningData ld).successfulQueries <:+ ld.successfulQueries) ∧
    (∀ ld : LearningData, 1000 < ld.successfulQueries.length →
      (savedLearningData ld).successfulQueries.length = 1000) := by
  refine ⟨?_, ?_, ?_⟩
  · intro n i sid
    rw [run_replicate_interact_log]
    show ([] : List UserInteraction) ++ _ = _
    rw [List.nil_append]
  · intro ld
    refine ⟨rfl, ?_, List.drop_suffix _ _⟩
    show (ld.successfulQueries.drop (ld.successfulQueries.length - 1000)).length = _
    rw [List.length_drop]
    omega
  · intro ld h
    show (ld.successfulQueries.drop (ld.successfulQueries.length - 1000)).length = 1000
    rw [List.length_drop]
    omega

/-- Witness for C6: a snapshot of a 1001-entry log persists exactly 1000
entries. -/
theorem C6_log_truncation_witness :
    (savedLearningData
      { defaultLearningData with
        successfulQueries := List.replicate 1001 interPlain }).successfulQueries.length =
      1000 :=
  C6_log_truncation.2.2 _ (by rw [List.length_replicate]; norm_num)

/-! ### Size term (C8) -/

theorem sizeScoreFromNumbers_eq_find (area : ℚ) (nums : List Nat) (n : Nat)
    (h : nums.find? (fun (m : Nat) => decide (m ≤ 1000 ∧ |area - (m : ℚ)| ≤ 100)) = some n) :
    sizeScoreFromNumbers area nums =
      some (if |area - (n : ℚ)| ≤ 20 then 40
        else if |area - (n : ℚ)| ≤ 50 then 20 else 10) := by
  induction nums with
  | nil => simp [List.find?] at h
  | cons m rest ih =>
    by_cases hp : m ≤ 1000 ∧ |area - (m : ℚ)| ≤ 100
    · have hm : n = m := by
        rw [List.find?_cons_of_pos _ (by simpa using hp)] at h
        exact (Option.some.injEq _ _ ▸ h).symm
      subst hm
      unfold sizeScoreFromNumbers
      rw [if_pos hp.1]
      by_cases h20 : |area - (n : ℚ)| ≤ 20
      · simp [h20]
      · by_cases h50 : |area - (n : ℚ)| ≤ 50 <;> simp [h20, h50, hp.2]
    · rw [List.find?_cons_of_neg _ (by simpa using hp)] at h
      unfold sizeScoreFromNumbers
      by_cases h1000 : m ≤ 1000
      · have h100 : ¬ |area - (m : ℚ)| ≤ 100 := fun hc => hp ⟨h1000, hc⟩
        have h20 : ¬ |area - (m : ℚ)| ≤ 20 := fun hc => h100 (le_trans hc (by norm_num))
        have h50 : ¬ |area - (m : ℚ)| ≤ 50 := fun hc => h100 (le_trans hc (by norm_num))
        rw [if_pos h1000]
        simp only [h20, if_false, h50, h100]
        exact ih h
      · rw [if_neg h1000]
        exact ih h

/-- C8: the size term: query `"80"` against area 85 yields raw 40, scaled by
the default `size_match` weight 30/30 into exactly 40 total score; in
general the first extracted integer ≤ 1000 within 100 of the item's area
decides the raw contribution (40 / 20 / 10 by distance bucket). -/
theorem C8_size_term :
    (calculateAdaptiveSizeScore ("80".data) 85 = 40) ∧
    ((calculateAdaptiveScore defaultLearningData ("80".data) item85).score = 40) ∧
    (∀ (q : Str) (area : ℚ) (n : Nat),
      (extractNumbers q).find? (fun (m : Nat) => decide (m ≤ 1000 ∧ |area - (m : ℚ)| ≤ 100)) =
        some n →
      calculateAdaptiveSizeScore q area =
        if |area - (n : ℚ)| ≤ 20 then 40
        else if |area - (n : ℚ)| ≤ 50 then 20 else 10) := by
  refine ⟨by with_unfolding_all decide, by with_unfolding_all decide, ?_⟩
  intro q area n h
  unfold calculateAdaptiveSizeScore
  rw [sizeScoreFromNumbers_eq_find area _ n h]

/-- Witness for C8: instantiating the general size-scan statement at query
`"80"`, area 85, first qualifying number 80. -/
theorem C8_size_term_witness :
    calculateAdaptiveSizeScore ("80".data) 85 =
      if |(85 : ℚ) - ((80 : Nat) : ℚ)| ≤ 20 then 40
      else if |(85 : ℚ) - ((80 : Nat) : ℚ)| ≤ 50 then 20 else 10 :=
  C8_size_term.2.2 ("80".data) 85 80 (by with_unfolding_all decide)

/-! ### Key normalization (C9) -/

theorem toNat_ofNat_valid {n : Nat} (h : n.isValidChar) : (Char.ofNat n).toNat = n := by
  simp [Char.ofNat, h, Char.ofNatAux, Char.toNat, UInt32.toNat, BitVec.toNat_ofNatLt]

theorem toLower_idem (c : Char) : (c.toLower).toLower = c.toLower := by
  unfold Char.toLower
  by_cases h : c.toNat ≥ 65 ∧ c.toNat ≤ 90
  · rw [if_pos h]
    have hv : (c.toNat + 32).isValidChar := Or.inl (by omega)
    have ht : (Char.ofNat (c.toNat + 32)).toNat = c.toNat + 32 := toNat_ofNat_valid hv
    rw [if_neg (by rw [ht]; omega)]
  · rw [if_neg h, if_neg h]

theorem toLower_fixed_of_mem_toLowerStr (s : Str) :
    ∀ c ∈ toLowerStr s, Char.toLower c = c := by
  intro c hc
  rcases List.mem_map.mp hc with ⟨d, _, rfl⟩
  exact toLower_idem d

theorem splitWsAux_forall (p : Char → Prop) :
    ∀ (s acc : Str) (flag : Bool),
      (∀ c ∈ s, Char.isWhitespace c = false → p c) →
      (∀ c ∈ acc, p c) →
      ∀ t ∈ splitWsAux s acc flag, ∀ c ∈ t, p c := by
  intro s
  induction s with
  | nil =>
    intro acc flag hs hacc t ht c hc
    cases flag with
    | false =>
      simp only [splitWsAux, Bool.false_eq_true, if_false, List.mem_singleton] at ht
      subst ht
      exact hacc c (List.mem_reverse.mp hc)
    | true =>
      simp only [splitWsAux, if_true, List.mem_singleton] at ht
      subst ht
      exact absurd hc (List.not_mem_nil c)
  | cons d rest ih =>
    intro acc flag hs hacc t ht c hc
    have hsrest : ∀ x ∈ rest, Char.isWhitespace x = false → p x :=
      fun x hx => hs x (List.mem_cons_of_mem d hx)
    cases flag with
    | false =>
      simp only [splitWsAux] at ht
      by_cases hw : Char.isWhitespace d = true
      · rw [if_pos hw] at ht
        rcases List.mem_cons.mp ht with rfl | htail
        · exact hacc c (List.mem_reverse.mp hc)
        · exact ih [] true hsrest (by simp) t htail c hc
      · rw [if_neg hw] at ht
        refine ih (d :: acc) false hsrest ?_ t ht c hc
        intro x hx
        rcases List.mem_cons.mp hx with hxd | hxa
        · exact hxd ▸ hs d (List.mem_cons_self d rest) (Bool.not_eq_true _ ▸ hw)
        · exact hacc x hxa
    | true =>
      simp only [splitWsAux] at ht
      by_cases hw : Char.isWhitespace d = true
      · rw [if_pos hw] at ht
        exact ih [] true hsrest (by simp) t ht c hc
      · rw [if_neg hw] at ht
        refine ih [d] false hsrest ?_ t ht c hc
        intro x hx
        have hxd := List.mem_singleton.mp hx
        exact hxd ▸ hs d (List.mem_cons_self d rest) (Bool.not_eq_true _ ▸ hw)

theorem splitWs_forall (p : Char → Prop) (s : Str)
    (hs : ∀ c ∈ s, Char.isWhitespace c = false → p c) :
    ∀ t ∈ splitWs s, ∀ c ∈ t, p c :=
  splitWsAux_forall p s [] false hs (by simp)

theorem dropWhile_eq_self_of (p : Char → Bool) (l : Str) (h : ∀ c ∈ l, p c = false) :
    l.dropWhile p = l := by
  cases l with
  | nil => rfl
  | cons a as =>
    rw [List.dropWhile_cons, if_neg]
    rw [h a (List.mem_cons_self a as)]
    simp

theorem trimStr_eq_self_of (t : Str) (h : ∀ c ∈ t, Char.isWhitespace c = false) :
    trimStr t = t := by
  unfold trimStr
  rw [dropWhile_eq_self_of _ t h,
    dropWhile_eq_self_of _ t.reverse (fun c hc => h c (List.mem_reverse.mp hc)),
    List.reverse_reverse]

theorem toLowerStr_eq_self_of (t : Str) (h : ∀ c ∈ t, Char.toLower c = c) :
    toLowerStr t = t := by
  unfold toLowerStr
  rw [List.map_congr_left h]
  simp

theorem normalKey_of_token (q : Str) (t : Str) (ht : t ∈ splitWs (toLowerStr q)) :
    normalKey t := by
  have hall := splitWs_forall
    (fun c => Char.isWhitespace c = false ∧ Char.toLower c = c) (toLowerStr q)
    (fun c hc hw => ⟨hw, toLower_fixed_of_mem_toLowerStr q c hc⟩) t ht
  exact ⟨toLowerStr_eq_self_of t (fun c hc => (hall c hc).2),
    trimStr_eq_self_of t (fun c hc => (hall c hc).1)⟩

theorem mapSet_fst {α : Type} (m : List (Str × α)) (k : Str) (v : α) :
    ∀ q ∈ mapSet m k v, q.1 = k ∨ q.1 ∈ m.map Prod.fst := by
  intro q hq
  unfold mapSet at hq
  split_ifs at hq
  · rcases List.mem_map.mp hq with ⟨r, hr, rfl⟩
    by_cases hrk : r.1 = k
    · left
      simp [hrk]
    · right
      simp only [hrk, if_false]
      exact List.mem_map.mpr ⟨r, hr, rfl⟩
  · rcases List.mem_append.mp hq with h | h
    · right
      exact List.mem_map.mpr ⟨q, h, rfl⟩
    · left
      rcases List.mem_singleton.mp h with rfl
      rfl

theorem foldl_mapSet_keys (g : List (Str × Nat) → Str → Nat) (words : List Str)
    (hw : ∀ w ∈ words, normalKey w) :
    ∀ qp : List (Str × Nat), (∀ p ∈ qp, normalKey p.1) →
      ∀ p ∈ words.foldl (fun qp w => mapSet qp w (g qp w)) qp, normalKey p.1 := by
  induction words with
  | nil => intro qp h p hp; exact h p hp
  | cons w ws ih =>
    intro qp h p hp
    refine ih (fun x hx => hw x (List.mem_cons_of_mem w hx)) _ ?_ p hp
    intro r hr
    rcases mapSet_fst qp w (g qp w) r hr with hk | hmem
    · exact hk ▸ hw w (List.mem_cons_self w ws)
    · rcases List.mem_map.mp hmem with ⟨r', hr', hfst⟩
      exact hfst ▸ h r' hr'

theorem queryPatterns_analyze (ld : LearningData) (i : UserInteraction)
    (h : ∀ p ∈ ld.queryPatterns, normalKey p.1) :
    ∀ p ∈ (analyzeSuccessfulQuery ld i).queryPatterns, normalKey p.1 := by
  intro p hp
  unfold analyzeSuccessfulQuery at hp
  split_ifs at hp <;>
  · refine foldl_mapSet_keys _ _ ?_ ld.queryPatterns h p hp
    intro w hw
    exact normalKey_of_token i.query w (List.mem_of_mem_filter hw)

theorem queryPatterns_recordClick (st : EngineState) (listingId : Str) :
    (recordClick st listingId).learningData.queryPatterns =
      st.learningData.queryPatterns := by
  by_cases h1 : st.currentQuery = [] <;>
    by_cases h2 : listingId ∈ getListOr st.learningData.contextualMappings st.currentQuery <;>
    simp [recordClick, h1, h2]

theorem queryPatterns_recordInteraction (ld : LearningData) (i : UserInteraction)
    (h : ∀ p ∈ ld.queryPatterns, normalKey p.1) :
    ∀ p ∈ (recordInteraction ld i).queryPatterns, normalKey p.1 := by
  intro p hp
  unfold recordInteraction updateWeightsBasedOnFeedback at hp
  cases hr : i.feedbackRating <;>
    by_cases hc : 0 < i.clickedListings.length <;>
    simp only [hr, hc, if_true, if_false] at hp
  · exact queryPatterns_analyze
      { ld with successfulQueries := ld.successfulQueries ++ [i] } i h p hp
  · exact h p hp
  · exact queryPatterns_analyze
      { ld with successfulQueries := ld.successfulQueries ++ [i] } i h p hp
  · exact h p hp

theorem step_normalKeys (st : EngineState) (op : Op)
    (h : ∀ p ∈ st.learningData.queryPatterns, normalKey p.1) :
    ∀ p ∈ (step st op).learningData.queryPatterns, normalKey p.1 := by
  cases op with
  | doSearch q listings => exact h
  | click listingId => rw [step, queryPatterns_recordClick]; exact h
  | feedback rating now =>
    show ∀ p ∈ (recordFeedback st rating now).learningData.queryPatterns, _
    unfold recordFeedback
    split_ifs with hq
    · exact h
    · exact queryPatterns_recordInteraction _ _ h
  | interact i => exact queryPatterns_recordInteraction _ _ h

/-- C9 counterexample: after `search("Shop X", [])` and `recordClick("id1")`,
the contextual-mappings key is the raw query `"Shop X"`, which is not equal
to its own lower-cased trimmed form — so not every stored textual key is
normalized. -/
theorem C9_counterexample :
    mapGet stClick.learningData.contextualMappings ("Shop X".data) = some ["id1".data] ∧
    toLowerStr (trimStr ("Shop X".data)) ≠ ("Shop X".data) := by
  constructor <;> with_unfolding_all decide

/-- C9 (amended): `queryPatterns` keys are always equal to their lower-cased
trimmed forms (they are whitespace-free lowered tokens); the
`contextualMappings` key written by `recordInteraction`'s pattern analysis is
the lower-cased — but not trimmed — interaction query; and `recordClick`
stores the clicked id under the current query exactly as the last `search`
received it (raw, not normalized). -/
theorem C9_key_normalization :
    (∀ (ops : List Op) (sid : Str),
      ∀ p ∈ (run ops (initEngine sid)).learningData.queryPatterns,
        toLowerStr p.1 = p.1 ∧ trimStr p.1 = p.1) ∧
    (∀ (ld : LearningData) (i : UserInteraction), 0 < i.clickedListings.length →
      (analyzeSuccessfulQuery ld i).contextualMappings =
        mapSet ld.contextualMappings (toLowerStr i.query) i.clickedListings) ∧
    (∀ (st : EngineState) (q : Str) (listings : List Listing),
      (search st q listings).2.currentQuery = q) ∧
    (∀ (st : EngineState) (listingId : Str), st.currentQuery ≠ [] →
      listingId ∉ getListOr st.learningData.contextualMappings st.currentQuery →
      (recordClick st listingId).learningData.contextualMappings =
        mapSet st.learningData.contextualMappings st.currentQuery
          (getListOr st.learningData.contextualMappings st.currentQuery ++ [listingId])) := by
  refine ⟨?_, ?_, fun st q listings => rfl, ?_⟩
  · intro ops sid
    suffices hgen : ∀ (ops : List Op) (st : EngineState),
        (∀ p ∈ st.learningData.queryPatterns, normalKey p.1) →
        ∀ p ∈ (run ops st).learningData.queryPatterns, normalKey p.1 by
      intro p hp
      exact hgen ops (initEngine sid) (by intro p hp; simp [initEngine, defaultLearningData] at hp)
        p hp
    intro ops
    induction ops with
    | nil => intro st h; exact h
    | cons op rest ih => intro st h; exact ih _ (step_normalKeys st op h)
  · intro ld i hc
    unfold analyzeSuccessfulQuery
    rw [if_pos hc]
  · intro st listingId hq hmem
    unfold recordClick
    rw [if_neg hq, if_neg hmem]

/-- Witness for C9: recording an interaction with raw query `" ABC DEF"` and
a click stores the pattern key `"abc"`, which equals its lower-cased trimmed
form. -/
theorem C9_key_normalization_witness :
    toLowerStr ("abc".data) = ("abc".data) ∧ trimStr ("abc".data) = ("abc".data) :=
  C9_key_normalization.1 [Op.interact interUpper] [] (("abc".data, 1))
    (by with_unfolding_all decide)

end Engine
